import Mathlib

/-!
Verification development for the neuron-cli note tool.

The Go sources are shallowly embedded: `float64` scheduling arithmetic is
modelled over `ℚ` with the literals' decimal values (1.6 = 8/5, 0.15 = 3/20,
0.2 = 1/5, 1.3 = 13/10, 2.5 = 5/2), timestamps are integers counting
nanoseconds (Go `time.Duration` units), and the SQLite notes table is a list
of records keyed by `filename`.
-/

/-- Embedding of `internal/note.Note` (note.go): the fields relevant to the
sync engine, the store and the scheduler. `createdAt` and `dueDate` are
nanosecond timestamps, `interval` and `easeFactor` are the `float64`
scheduling fields modelled over `ℚ`. -/
structure Note where
  filename : String
  title : String
  tags : List String
  content : String
  createdAt : ℤ
  dueDate : ℤ
  interval : ℚ
  easeFactor : ℚ
deriving DecidableEq

/-- Embedding of the constant `study.RatingAgain = 1`. -/
def RatingAgain : Int := 1

/-- Embedding of the constant `study.RatingGood = 2`. -/
def RatingGood : Int := 2

/-- Embedding of the constant `study.RatingEasy = 3`. -/
def RatingEasy : Int := 3

/-- Nanoseconds in `time.Hour * 24`. -/
def dayNanos : ℤ := 86400000000000

/-- Go's `time.Duration(x)` conversion from `float64` truncates toward zero. -/
def goDurationTrunc (q : ℚ) : ℤ := if 0 ≤ q then ⌊q⌋ else -⌊-q⌋

/-- Interval produced by `study.UpdateSRSData` (srs.go): rating `Again`
resets to 1; otherwise the growth ladder `interval < 1 → 1`,
`interval < 6 → ceil(interval * 1.6)`, else `ceil(interval * easeFactor)`,
reading the pre-update `easeFactor`. -/
def nextInterval (n : Note) (rating : Int) : ℚ :=
  if rating = RatingAgain then 1
  else if n.interval < 1 then 1
  else if n.interval < 6 then (⌈n.interval * (8/5)⌉ : ℤ)
  else (⌈n.interval * n.easeFactor⌉ : ℤ)

/-- Ease factor produced by `study.UpdateSRSData`: `Again` applies
`max(1.3, easeFactor - 0.2)`; `Easy` adds 0.15; `Good` (and any other
non-`Again` rating) leaves it unchanged. -/
def nextEaseFactor (n : Note) (rating : Int) : ℚ :=
  if rating = RatingAgain then max (13/10) (n.easeFactor - 1/5)
  else if rating = RatingEasy then n.easeFactor + 3/20
  else n.easeFactor

/-- Embedding of `study.UpdateSRSData(n, rating)` at time `now`: updates the
scheduling fields and sets `DueDate = now + time.Hour*24*time.Duration(interval)`
with the post-update interval. -/
def UpdateSRSData (n : Note) (rating : Int) (now : ℤ) : Note :=
  { n with
    interval := nextInterval n rating
    easeFactor := nextEaseFactor n rating
    dueDate := now + dayNanos * goDurationTrunc (nextInterval n rating) }

/-- Stated from the spec's words, for comparison with the code: the interval
growth rule shared by `Good` and `Easy` ("if interval < 1, interval ← 1; else
if interval < 6, interval ← ceil(interval × 1.6); else interval ←
ceil(interval × easeFactor)"), applied to the pre-update ease factor. -/
def specGrowInterval (interval easeFactor : ℚ) : ℚ :=
  if interval < 1 then 1
  else if interval < 6 then (⌈interval * (8/5)⌉ : ℤ)
  else (⌈interval * easeFactor⌉ : ℤ)

/-- Scheduling-state invariant claimed by the spec: `interval ≥ 1` and
`easeFactor ≥ 1.3`. -/
def SRSInv (n : Note) : Prop := 1 ≤ n.interval ∧ 13/10 ≤ n.easeFactor

instance (n : Note) : Decidable (SRSInv n) := by
  unfold SRSInv; infer_instance

/-- Scheduling state of a freshly parsed note (`note.ParseFile` defaults:
`Interval = 1.0`, `EaseFactor = 2.5`). -/
def initialNote : Note :=
  { filename := "", title := "", tags := [], content := "", createdAt := 0,
    dueDate := 0, interval := 1, easeFactor := 5/2 }

/-- Fold of `UpdateSRSData` over a sequence of (rating, review time) pairs,
starting from the fresh-note scheduling state. -/
def applyRatings (rs : List (Int × ℤ)) : Note :=
  rs.foldl (fun s p => UpdateSRSData s p.1 p.2) initialNote

/-- Embedding of `db.InsertNote`'s SQL statement: `INSERT ... ON
CONFLICT(filename) DO UPDATE SET title=excluded.title, tags=excluded.tags,
content=excluded.content, created_at=excluded.created_at`. The notes table is
a list of records; on a filename conflict only `title`, `tags`, `content`
and `createdAt` are rewritten, otherwise the row is appended. -/
def InsertNote (store : List Note) (n : Note) : List Note :=
  if store.any (fun r => r.filename = n.filename) then
    store.map (fun r =>
      if r.filename = n.filename then
        { r with title := n.title, tags := n.tags, content := n.content,
                 createdAt := n.createdAt }
      else r)
  else store ++ [n]

/-- Lookup of the stored row for a filename (SQL `WHERE filename = ?`;
the schema declares `filename TEXT NOT NULL UNIQUE`). -/
def findByFilename (store : List Note) (f : String) : Option Note :=
  store.find? (fun r => r.filename = f)

/-- ASCII lower-casing of one character, the effect of Go `strings.ToLower`
on the characters relevant here. -/
def lowerChar (c : Char) : Char :=
  if 'A' ≤ c ∧ c ≤ 'Z' then Char.ofNat (c.toNat + 32) else c

/-- Model of Go `strings.ToLower` (ASCII range). -/
def goToLower (s : String) : String := String.mk (s.data.map lowerChar)

/-- Model of Go `strings.HasSuffix`. -/
def goHasSuffix (s suffix : String) : Bool :=
  List.isSuffixOf suffix.data s.data

/-- Metadata values delivered by the front-matter parser (`map[string]any`
in Go): strings, integers, or arrays of further values. -/
inductive MetaValue where
  | str : String → MetaValue
  | intVal : Int → MetaValue
  | arr : List MetaValue → MetaValue

/-- Go map indexing `metaData[key]`: the metadata map is modelled as an
association list with unique keys; lookup returns the first binding. -/
def lookupMeta (md : List (String × MetaValue)) (key : String) : Option MetaValue :=
  match md with
  | [] => none
  | (k, v) :: rest => if k = key then some v else lookupMeta rest key

/-- Go type assertion `t.(string)` applied to one metadata array entry. -/
def tagString : MetaValue → Option String
  | MetaValue.str s => some s
  | _ => none

/-- Embedding of the tags extraction in `note.ParseFile` (note.go): `if tags,
ok := metaData["Tags"].([]any); ok` followed by the loop appending every entry
that asserts to a string. -/
def extractTags (md : List (String × MetaValue)) : List String :=
  match lookupMeta md "Tags" with
  | some (MetaValue.arr ts) => ts.filterMap tagString
  | _ => []

/-- Stated from the spec's words, for comparison with the code: tags come
from a "case-insensitively recognized key such as tags"; non-string entries
are skipped; an absent field yields the empty tag set. -/
def specExtractTagsCI (md : List (String × MetaValue)) : List String :=
  match md.find? (fun p => goToLower p.1 = "tags") with
  | some (_, MetaValue.arr ts) => ts.filterMap tagString
  | _ => []

/-- Restated extraction with a case-sensitive exact-key search, used to
express the amended claim in a second form. -/
def specExtractTagsCS (md : List (String × MetaValue)) : List String :=
  match md.find? (fun p => p.1 = "Tags") with
  | some (_, MetaValue.arr ts) => ts.filterMap tagString
  | _ => []

/-- One filesystem entry seen by `filepath.Walk` in the import command,
together with the environment's outcome for it: `parsed = none` models a
`note.ParseFile` error, `insertOk = false` models a `db.InsertNote` error. -/
structure FileItem where
  isDir : Bool
  name : String
  parsed : Option Note
  insertOk : Bool

/-- File filter of the import walk: `!info.IsDir() &&
strings.HasSuffix(strings.ToLower(info.Name()), ".md")`. -/
def isMarkdownFile (f : FileItem) : Bool :=
  !f.isDir && goHasSuffix (goToLower f.name) ".md"

/-- Body of the walk callback in `importCmd` (import.go): non-Markdown
entries are ignored; a parse error is logged and skipped; an insert error is
logged and skipped; only a fully successful file increments
`importedCount`. In every case the callback returns nil, so the walk
continues with the remaining files. -/
def syncStep (count : ℕ) (f : FileItem) : ℕ :=
  if isMarkdownFile f then
    match f.parsed with
    | none => count
    | some _ => if f.insertOk then count + 1 else count
  else count

/-- Model of the whole walk of `importCmd`: fold the callback over the files
in scan order, starting from `importedCount := 0`. -/
def importedCount (files : List FileItem) : ℕ :=
  files.foldl syncStep 0

/-- A file counts as synced when it passes the Markdown filter, parses, and
inserts without error. -/
def syncSuccess (f : FileItem) : Bool :=
  isMarkdownFile f && f.parsed.isSome && f.insertOk

/-- State of the lazily opened SQLite handle: which initialization stages
have completed. -/
structure DBConn where
  opened : Bool
  pinged : Bool
  tablesCreated : Bool
deriving DecidableEq

/-- Process-wide state of the `db` package: the `sync.Once` flag and the
`dbInstance` package variable. -/
structure DBState where
  onceDone : Bool
  dbInstance : Option DBConn
deriving DecidableEq

/-- Environment outcome of the single initialization attempt inside
`once.Do`: which stage (if any) fails. -/
inductive InitOutcome where
  | openFails
  | pingFails
  | createFails
  | allOk
deriving DecidableEq

/-- Result of running the `once.Do` body of the string-argument `GetDB`
variant: the resulting `dbInstance` and the captured `err`, per failing
stage. `sql.Open` failure leaves `dbInstance` nil; a `Ping` or
`createTables` failure leaves a partially initialized handle behind. -/
def runInit (o : InitOutcome) : Option DBConn × Option String :=
  match o with
  | InitOutcome.openFails => (none, some "open failed")
  | InitOutcome.pingFails =>
      (some { opened := true, pinged := false, tablesCreated := false }, some "ping failed")
  | InitOutcome.createFails =>
      (some { opened := true, pinged := true, tablesCreated := false }, some "create tables failed")
  | InitOutcome.allOk =>
      (some { opened := true, pinged := true, tablesCreated := true }, none)

/-- Embedding of the string-argument variant of `db.GetDB` (the revision that
returns its error): `var err error; once.Do(func() { ... err = ... });
return dbInstance, err`. When `once` has already fired, the body is skipped
and the per-call local `err` stays nil, so the call returns
`(dbInstance, nil)` regardless of how initialization went. -/
def GetDB (st : DBState) (o : InitOutcome) :
    DBState × Option DBConn × Option String :=
  if st.onceDone then (st, st.dbInstance, none)
  else
    let r := runInit o
    ({ onceDone := true, dbInstance := r.1 }, r.1, r.2)

/-- Embedding of the no-argument variant of `db.GetDB` (the revision that
calls `log.Fatalf` on every initialization error): `none` models the halted
process; a non-halting first call always yields a fully initialized handle. -/
def GetDBFatal (st : DBState) (o : InitOutcome) :
    Option (DBState × DBConn) :=
  if st.onceDone then
    match st.dbInstance with
    | some c => some (st, c)
    | none => none
  else
    match runInit o with
    | (some c, none) => some ({ onceDone := true, dbInstance := some c }, c)
    | _ => none

/-- A handle that completed every initialization stage. -/
def fullyReady (c : DBConn) : Prop :=
  c.opened = true ∧ c.pinged = true ∧ c.tablesCreated = true

/-! Helper lemmas. -/

theorem goDurationTrunc_intCast (k : ℤ) : goDurationTrunc (k : ℚ) = k := by
  unfold goDurationTrunc
  split
  · simp
  · rw [show (-(k : ℚ)) = ((-k : ℤ) : ℚ) by push_cast; ring, Int.floor_intCast]
    ring

theorem ceil_rat_eq (x : ℚ) (k : ℤ) (h1 : (k : ℚ) - 1 < x) (h2 : x ≤ (k : ℚ)) :
    (⌈x⌉ : ℤ) = k := by
  rw [Int.ceil_eq_iff]
  · exact ⟨h1, h2⟩

theorem nextInterval_intCast (n : Note) (rating : Int) :
    ∃ k : ℤ, nextInterval n rating = (k : ℚ) := by
  unfold nextInterval
  split
  · exact ⟨1, by norm_num⟩
  · split
    · exact ⟨1, by norm_num⟩
    · split
      · exact ⟨⌈n.interval * (8/5)⌉, rfl⟩
      · exact ⟨⌈n.interval * n.easeFactor⌉, rfl⟩

theorem nextInterval_ge_one (n : Note) (rating : Int) (h : SRSInv n) :
    1 ≤ nextInterval n rating := by
  obtain ⟨hi, he⟩ := h
  unfold nextInterval
  split
  · exact le_refl 1
  · split
    · exact le_refl 1
    · split
      · have hx : (1 : ℚ) ≤ n.interval * (8/5) := by nlinarith
        calc (1 : ℚ) ≤ n.interval * (8/5) := hx
          _ ≤ (⌈n.interval * (8/5)⌉ : ℤ) := Int.le_ceil _
      · have hx : (1 : ℚ) ≤ n.interval * n.easeFactor := by nlinarith
        calc (1 : ℚ) ≤ n.interval * n.easeFactor := hx
          _ ≤ (⌈n.interval * n.easeFactor⌉ : ℤ) := Int.le_ceil _

theorem nextEaseFactor_ge (n : Note) (rating : Int) (h : 13/10 ≤ n.easeFactor) :
    13/10 ≤ nextEaseFactor n rating := by
  unfold nextEaseFactor
  split
  · exact le_max_left _ _
  · split
    · linarith
    · exact h

theorem srsInv_step (n : Note) (rating : Int) (now : ℤ) (h : SRSInv n) :
    SRSInv (UpdateSRSData n rating now) :=
  ⟨nextInterval_ge_one n rating h, nextEaseFactor_ge n rating h.2⟩

theorem srsInv_foldl (rs : List (Int × ℤ)) (s : Note) (h : SRSInv s) :
    SRSInv (rs.foldl (fun t p => UpdateSRSData t p.1 p.2) s) := by
  induction rs generalizing s with
  | nil => exact h
  | cons p rest ih => exact ih _ (srsInv_step s p.1 p.2 h)

/-- C1: on every scheduling state, the `Good` and `Easy` transitions of
`UpdateSRSData` grow the interval by the spec's ladder (interval < 1 → 1,
interval < 6 → ceil(interval × 1.6), else ceil(interval × easeFactor)) using
the pre-update ease factor; `Good` leaves the ease factor unchanged and
`Easy` adds 0.15 afterwards; in particular from interval = 6,
easeFactor = 2.5 an `Easy` rating yields interval = 15 and
easeFactor = 2.65. -/
theorem good_easy_follow_growth_ladder :
    (∀ (n : Note) (now : ℤ),
      (UpdateSRSData n RatingGood now).interval = specGrowInterval n.interval n.easeFactor ∧
      (UpdateSRSData n RatingGood now).easeFactor = n.easeFactor ∧
      (UpdateSRSData n RatingEasy now).interval = specGrowInterval n.interval n.easeFactor ∧
      (UpdateSRSData n RatingEasy now).easeFactor = n.easeFactor + 3/20) ∧
    (UpdateSRSData { initialNote with interval := 6, easeFactor := 5/2 } RatingEasy 0).interval = 15 ∧
    (UpdateSRSData { initialNote with interval := 6, easeFactor := 5/2 } RatingEasy 0).easeFactor = 53/20 := by
  refine ⟨fun n now => ?_, ?_, ?_⟩
  · simp [UpdateSRSData, nextInterval, nextEaseFactor, specGrowInterval,
      RatingAgain, RatingGood, RatingEasy]
  · have hc : (⌈(6 : ℚ) * (5/2)⌉ : ℤ) = 15 := ceil_rat_eq _ 15 (by norm_num) (by norm_num)
    simp [UpdateSRSData, nextInterval, RatingAgain, RatingEasy, initialNote, hc]
  · simp [UpdateSRSData, nextEaseFactor, RatingAgain, RatingEasy, initialNote]
    norm_num

/-- C2: on every scheduling state, the `Again` transition of `UpdateSRSData`
sets the interval to exactly 1 and the ease factor to
max(1.3, easeFactor − 0.2); in particular from interval = 10,
easeFactor = 2.0 it yields interval = 1 and easeFactor = 1.8. -/
theorem again_resets_interval :
    (∀ (n : Note) (now : ℤ),
      (UpdateSRSData n RatingAgain now).interval = 1 ∧
      (UpdateSRSData n RatingAgain now).easeFactor = max (13/10) (n.easeFactor - 1/5)) ∧
    (UpdateSRSData { initialNote with interval := 10, easeFactor := 2 } RatingAgain 0).interval = 1 ∧
    (UpdateSRSData { initialNote with interval := 10, easeFactor := 2 } RatingAgain 0).easeFactor = 9/5 := by
  refine ⟨fun n now => ?_, ?_, ?_⟩
  · simp [UpdateSRSData, nextInterval, nextEaseFactor, RatingAgain]
  · simp [UpdateSRSData, nextInterval, RatingAgain]
  · simp [UpdateSRSData, nextEaseFactor, RatingAgain, initialNote]
    norm_num

/-- C3: the predicate interval ≥ 1 ∧ easeFactor ≥ 1.3 is preserved by
`UpdateSRSData` for each of the ratings Again, Good and Easy, and therefore
holds after every sequence of rated reviews starting from the fresh-note
state interval = 1, easeFactor = 2.5. -/
theorem srs_invariant_preserved :
    (∀ (n : Note) (r : Int) (now : ℤ),
      (r = RatingAgain ∨ r = RatingGood ∨ r = RatingEasy) →
      SRSInv n → SRSInv (UpdateSRSData n r now)) ∧
    (∀ rs : List (Int × ℤ),
      (∀ p ∈ rs, p.1 = RatingAgain ∨ p.1 = RatingGood ∨ p.1 = RatingEasy) →
      SRSInv (applyRatings rs)) := by
  constructor
  · exact fun n r now _ h => srsInv_step n r now h
  · intro rs _
    exact srsInv_foldl rs initialNote ⟨le_refl 1, by norm_num [initialNote]⟩

/-- Witness for C3: the invariant-preservation theorem applied at the state
interval = 1, easeFactor = 1.3 with a `Good` rating, and at the single-review
sequence `[(Good, 0)]`. -/
theorem srs_invariant_preserved_witness :
    SRSInv (UpdateSRSData { initialNote with easeFactor := 13/10 } RatingGood 0) ∧
    SRSInv (applyRatings [(RatingGood, 0)]) :=
  ⟨srs_invariant_preserved.1 { initialNote with easeFactor := 13/10 } RatingGood 0
      (Or.inr (Or.inl rfl)) ⟨le_refl 1, le_refl (13/10)⟩,
    srs_invariant_preserved.2 [(RatingGood, 0)]
      (by simp)⟩

/-- C5: on every scheduling state with interval ≥ 6 and easeFactor ≥ 1.3, a
`Good` or `Easy` rating never decreases the interval, while an `Again`
rating sets it to exactly 1. -/
theorem scheduler_monotonicity (n : Note) (now : ℤ)
    (h6 : 6 ≤ n.interval) (he : 13/10 ≤ n.easeFactor) :
    n.interval ≤ (UpdateSRSData n RatingGood now).interval ∧
    n.interval ≤ (UpdateSRSData n RatingEasy now).interval ∧
    (UpdateSRSData n RatingAgain now).interval = 1 := by
  have hgrow : n.interval ≤ (⌈n.interval * n.easeFactor⌉ : ℤ) := by
    have h1 : n.interval * 1 ≤ n.interval * n.easeFactor := by nlinarith
    have h2 : (n.interval * n.easeFactor : ℚ) ≤ (⌈n.interval * n.easeFactor⌉ : ℤ) :=
      Int.le_ceil _
    linarith
  refine ⟨?_, ?_, ?_⟩
  · simp only [UpdateSRSData, nextInterval, RatingAgain, RatingGood]
    rw [if_neg (by decide), if_neg (by linarith), if_neg (by linarith)]
    exact hgrow
  · simp only [UpdateSRSData, nextInterval, RatingAgain, RatingEasy]
    rw [if_neg (by decide), if_neg (by linarith), if_neg (by linarith)]
    exact hgrow
  · simp [UpdateSRSData, nextInterval, RatingAgain]

/-- Witness for C5: the monotonicity theorem at interval = 6,
easeFactor = 1.3. -/
theorem scheduler_monotonicity_witness :
    (6 : ℚ) ≤ (UpdateSRSData { initialNote with interval := 6, easeFactor := 13/10 } RatingGood 0).interval ∧
    (6 : ℚ) ≤ (UpdateSRSData { initialNote with interval := 6, easeFactor := 13/10 } RatingEasy 0).interval ∧
    (UpdateSRSData { initialNote with interval := 6, easeFactor := 13/10 } RatingAgain 0).interval = 1 :=
  scheduler_monotonicity { initialNote with interval := 6, easeFactor := 13/10 } 0
    (le_refl 6) (le_refl (13/10))

/-- C6: after `UpdateSRSData` processes any rating at time `now`, the stored
due date equals `now` plus the post-update interval in days (interval × 24
hours, in nanoseconds). -/
theorem dueDate_is_now_plus_interval_days (n : Note) (rating : Int) (now : ℤ) :
    ((UpdateSRSData n rating now).dueDate : ℚ) =
      (now : ℚ) + (dayNanos : ℚ) * (UpdateSRSData n rating now).interval := by
  obtain ⟨k, hk⟩ := nextInterval_intCast n rating
  simp only [UpdateSRSData, hk, goDurationTrunc_intCast]
  push_cast
  ring

/-- C10: `UpdateSRSData` is total on integer ratings: every rating other
than 1 (`Again`) takes the successful-recall branch, growing the interval by
the `Good` ladder, and the ease factor gains 0.15 exactly when the rating is
3 (`Easy`); out-of-range ratings such as 0 or 4 behave exactly like `Good`
and are never rejected. -/
theorem updateSRSData_accepts_any_rating (n : Note) (r : Int) (now : ℤ)
    (h : r ≠ RatingAgain) :
    (UpdateSRSData n r now).interval = specGrowInterval n.interval n.easeFactor ∧
    (UpdateSRSData n r now).easeFactor =
      (if r = RatingEasy then n.easeFactor + 3/20 else n.easeFactor) ∧
    UpdateSRSData n 0 now = UpdateSRSData n RatingGood now ∧
    UpdateSRSData n 4 now = UpdateSRSData n RatingGood now := by
  refine ⟨?_, ?_, ?_, ?_⟩
  · simp only [UpdateSRSData, nextInterval, specGrowInterval]
    rw [if_neg h]
  · simp only [UpdateSRSData, nextEaseFactor]
    rw [if_neg h]
  · simp [UpdateSRSData, nextInterval, nextEaseFactor,
      RatingAgain, RatingGood, RatingEasy]
  · simp [UpdateSRSData, nextInterval, nextEaseFactor,
      RatingAgain, RatingGood, RatingEasy]

/-- Witness for C10: the totality theorem applied at the out-of-range
rating 0. -/
theorem updateSRSData_accepts_any_rating_witness :
    (UpdateSRSData initialNote 0 0).interval =
      specGrowInterval initialNote.interval initialNote.easeFactor ∧
    (UpdateSRSData initialNote 0 0).easeFactor =
      (if (0 : Int) = RatingEasy then initialNote.easeFactor + 3/20
       else initialNote.easeFactor) ∧
    UpdateSRSData initialNote 0 0 = UpdateSRSData initialNote RatingGood 0 ∧
    UpdateSRSData initialNote 4 0 = UpdateSRSData initialNote RatingGood 0 :=
  updateSRSData_accepts_any_rating initialNote 0 0 (by decide)

/-- C4: when a note's filename already has a row in the store, `InsertNote`
overwrites only `title`, `tags`, `content` and `createdAt` of that row and
leaves its `dueDate`, `interval` and `easeFactor` (and filename) exactly as
they were before the call. -/
theorem insertNote_preserves_scheduling (store : List Note) (n r : Note)
    (h : findByFilename store n.filename = some r) :
    findByFilename (InsertNote store n) n.filename =
      some { r with title := n.title, tags := n.tags, content := n.content,
                    createdAt := n.createdAt } := by
  induction store with
  | nil => simp [findByFilename] at h
  | cons hd tl ih =>
    by_cases hh : hd.filename = n.filename
    · have hr : hd = r := by
        unfold findByFilename at h
        rw [List.find?_cons_of_pos _ (by simp [hh])] at h
        exact Option.some.inj h
      subst hr
      have hany : ((hd :: tl).any fun x => x.filename = n.filename) = true := by
        simp [List.any_cons, hh]
      unfold InsertNote
      rw [if_pos hany, List.map_cons, if_pos hh]
      unfold findByFilename
      rw [List.find?_cons_of_pos _ (by simp [hh])]
    · unfold findByFilename at h
      rw [List.find?_cons_of_neg _ (by simp [hh])] at h
      have htl : (tl.any fun x => x.filename = n.filename) = true := by
        have hmem := List.mem_of_find?_eq_some h
        have hp := List.find?_some h
        simp only [decide_eq_true_eq] at hp
        exact List.any_eq_true.mpr ⟨r, hmem, by simp [hp]⟩
      have hanyc : ((hd :: tl).any fun x => x.filename = n.filename) = true := by
        simp [List.any_cons, htl]
      have ih' := ih h
      unfold InsertNote at ih' ⊢
      rw [if_pos hanyc, List.map_cons, if_neg hh]
      rw [if_pos htl] at ih'
      unfold findByFilename at ih' ⊢
      rw [List.find?_cons_of_neg _ (by simp [hh])]
      exact ih'

/-- Witness for C4: re-inserting a note for filename a.md with a new title
keeps the stored row's dueDate = 7, interval = 10, easeFactor = 2. -/
theorem insertNote_preserves_scheduling_witness :
    findByFilename
      (InsertNote
        [Note.mk "a.md" "old" [] "body" 3 7 10 2]
        (Note.mk "a.md" "new" ["t"] "body2" 4 0 1 (5/2)))
      (Note.mk "a.md" "new" ["t"] "body2" 4 0 1 (5/2)).filename =
      some (Note.mk "a.md" "new" ["t"] "body2" 4 7 10 2) :=
  insertNote_preserves_scheduling
    [Note.mk "a.md" "old" [] "body" 3 7 10 2]
    (Note.mk "a.md" "new" ["t"] "body2" 4 0 1 (5/2))
    (Note.mk "a.md" "old" [] "body" 3 7 10 2)
    rfl

theorem syncStep_eq (c : ℕ) (f : FileItem) :
    syncStep c f = c + (if syncSuccess f then 1 else 0) := by
  unfold syncStep syncSuccess
  cases hp : f.parsed with
  | none => cases hm : isMarkdownFile f <;> simp [hp, hm]
  | some v =>
    cases hm : isMarkdownFile f <;> cases hi : f.insertOk <;> simp [hp, hm, hi]

theorem importedCount_eq_filter (files : List FileItem) :
    importedCount files = (files.filter syncSuccess).length := by
  unfold importedCount
  suffices h : ∀ c, files.foldl syncStep c = c + (files.filter syncSuccess).length by
    simpa using h 0
  induction files with
  | nil => intro c; simp
  | cons f rest ih =>
    intro c
    rw [List.foldl_cons, syncStep_eq, ih]
    by_cases h : syncSuccess f = true
    · simp [List.filter_cons, h]
      omega
    · have hf : syncSuccess f = false := by simpa using h
      simp [List.filter_cons, hf]

/-- C7: during an import walk, a file whose parse or store insert fails (or
which is not a Markdown file) is skipped without aborting the run: the walk
still processes every other file, the final count equals the number of fully
successful files, and removing the failed file from the scan changes
nothing. -/
theorem sync_isolates_per_file_failures (xs ys : List FileItem) (b : FileItem)
    (hb : syncSuccess b = false) :
    importedCount (xs ++ b :: ys) = importedCount (xs ++ ys) ∧
    importedCount (xs ++ b :: ys) = ((xs ++ ys).filter syncSuccess).length := by
  have h1 : importedCount (xs ++ b :: ys) = ((xs ++ b :: ys).filter syncSuccess).length :=
    importedCount_eq_filter _
  have h2 : (xs ++ b :: ys).filter syncSuccess = (xs ++ ys).filter syncSuccess := by
    simp [List.filter_append, List.filter_cons, hb]
  refine ⟨?_, ?_⟩
  · rw [h1, h2, ← importedCount_eq_filter]
  · rw [h1, h2]

/-- Witness for C7: a scan of one good Markdown file, one file whose insert
fails, and one good Markdown file counts exactly the two successes. -/
theorem sync_isolates_per_file_failures_witness :
    importedCount
        [FileItem.mk false "a.md" (some initialNote) true,
         FileItem.mk false "b.md" (some initialNote) false,
         FileItem.mk false "c.md" (some initialNote) true] =
      importedCount
        [FileItem.mk false "a.md" (some initialNote) true,
         FileItem.mk false "c.md" (some initialNote) true] ∧
    importedCount
        [FileItem.mk false "a.md" (some initialNote) true,
         FileItem.mk false "b.md" (some initialNote) false,
         FileItem.mk false "c.md" (some initialNote) true] =
      (List.filter syncSuccess
        [FileItem.mk false "a.md" (some initialNote) true,
         FileItem.mk false "c.md" (some initialNote) true]).length :=
  sync_isolates_per_file_failures
    [FileItem.mk false "a.md" (some initialNote) true]
    [FileItem.mk false "c.md" (some initialNote) true]
    (FileItem.mk false "b.md" (some initialNote) false)
    rfl

theorem lookupMeta_eq_find (md : List (String × MetaValue)) (k : String) :
    lookupMeta md k = (md.find? fun p => p.1 = k).map Prod.snd := by
  induction md with
  | nil => rfl
  | cons p rest ih =>
    obtain ⟨a, v⟩ := p
    by_cases h : a = k
    · simp [lookupMeta, h, List.find?_cons_of_pos]
    · rw [show lookupMeta ((a, v) :: rest) k = lookupMeta rest k by
        simp [lookupMeta, h]]
      rw [List.find?_cons_of_neg _ (by simp [h])]
      exact ih

/-- Counterexample for C8: a metadata map whose tags key is spelled in lower
case. The parser's exact-key lookup `metaData["Tags"]` misses it and returns
the empty tag set, while the claimed case-insensitive recognition would
return the tag a. -/
theorem tags_key_not_case_insensitive :
    extractTags [("tags", MetaValue.arr [MetaValue.str "a"])] = [] ∧
    specExtractTagsCI [("tags", MetaValue.arr [MetaValue.str "a"])] = ["a"] ∧
    extractTags [("tags", MetaValue.arr [MetaValue.str "a"])] ≠
      specExtractTagsCI [("tags", MetaValue.arr [MetaValue.str "a"])] := by
  refine ⟨rfl, rfl, ?_⟩
  intro h
  exact List.noConfusion h

/-- C8 (amended): the parser recognizes the tags metadata key only by the
exact, case-sensitive key Tags; non-string entries of the array are silently
skipped; an absent (or non-array) Tags field yields the empty tag set. -/
theorem tags_exact_key_case_sensitive :
    (∀ md, extractTags md = specExtractTagsCS md) ∧
    (∀ md, lookupMeta md "Tags" = none → extractTags md = []) ∧
    (∀ ts, extractTags [("Tags", MetaValue.arr ts)] = ts.filterMap tagString) ∧
    (∀ md s, lookupMeta md "Tags" = some (MetaValue.str s) → extractTags md = []) := by
  refine ⟨?_, ?_, ?_, ?_⟩
  · intro md
    unfold extractTags specExtractTagsCS
    rw [lookupMeta_eq_find]
    cases hf : md.find? fun p => p.1 = "Tags" with
    | none => rfl
    | some pr =>
      obtain ⟨a, v⟩ := pr
      cases v <;> rfl
  · intro md h
    unfold extractTags
    rw [h]
  · intro ts
    rfl
  · intro md s h
    unfold extractTags
    rw [h]

/-- Witness for C8's amended theorem: metadata without a Tags key, and
metadata whose array mixes a string with an integer. -/
theorem tags_exact_key_case_sensitive_witness :
    extractTags [("Created", MetaValue.str "2024-01-01")] = [] ∧
    extractTags [("Tags", MetaValue.arr [MetaValue.str "a", MetaValue.intVal 3])] = ["a"] :=
  ⟨tags_exact_key_case_sensitive.2.1 [("Created", MetaValue.str "2024-01-01")] rfl,
    tags_exact_key_case_sensitive.2.2.1 [MetaValue.str "a", MetaValue.intVal 3]⟩

/-- C9: evaluation of the error-returning `GetDB` revision at a failing
initialization. The first call fails `Ping` inside `once.Do` and surfaces the
error, but a second call finds `once` already fired, so it returns the
never-pinged handle with tables never created together with a nil error: a
caller does observe a partially initialized store as a successful result,
contradicting the claim that initialization failure is fatal and never
observable as success (the `log.Fatalf` revision of `GetDB` does halt). -/
theorem getDB_second_call_masks_init_failure :
    (GetDB (DBState.mk false none) InitOutcome.pingFails).2.2 = some "ping failed" ∧
    (GetDB (GetDB (DBState.mk false none) InitOutcome.pingFails).1
        InitOutcome.pingFails).2.2 = none ∧
    (GetDB (GetDB (DBState.mk false none) InitOutcome.pingFails).1
        InitOutcome.pingFails).2.1 = some (DBConn.mk true false false) ∧
    ¬ fullyReady (DBConn.mk true false false) := by
  refine ⟨rfl, rfl, rfl, ?_⟩
  intro h
  simp [fullyReady] at h

/-- Support for C9: in the `log.Fatalf` revision of `GetDB`, every
non-halting first call returns a handle that completed open, ping and table
creation, so no caller observes a partially initialized store. -/
theorem getDBFatal_success_is_fully_ready (o : InitOutcome) (st' : DBState) (c : DBConn)
    (h : GetDBFatal (DBState.mk false none) o = some (st', c)) :
    fullyReady c := by
  cases o with
  | openFails => simp [GetDBFatal, runInit] at h
  | pingFails => simp [GetDBFatal, runInit] at h
  | createFails => simp [GetDBFatal, runInit] at h
  | allOk =>
    simp [GetDBFatal, runInit] at h
    obtain ⟨h1, h2⟩ := h
    rw [← h2]
    exact ⟨rfl, rfl, rfl⟩
